import Mathlib

/-!
Verification development for the `dispatch-transcriber` repository.

The Python sources (`process_dispatcher.py`, `active911.py`, `pushover_notify.py`)
are shallowly embedded below.  Strings are modelled as Lean `String` / `List Char`
(Python compares and sorts strings by code point, which coincides with comparing
`Char.val`); Python floats are modelled as exact rationals `ℚ`; fallible external
calls (HTTP requests, file moves, the transcription engine) are modelled by
explicit outcome oracles passed to the embedded functions.  Character classes for
the source's regular expressions (`\s`, `\w`) are modelled over ASCII.
-/

/-- ASCII whitespace, as recognised by Python's `str.split()` / `str.strip()` and
by `\s` in the source's regexes (restricted to ASCII). -/
def isWsp (c : Char) : Bool :=
  c = ' ' || c = '\t' || c = '\n' || c = '\r' || c = '\x0b' || c = '\x0c'

/-- `\w` word characters (ASCII restriction): letters, digits, underscore. -/
def isWordCh (c : Char) : Bool := c.isAlphanum || c = '_'

/-- Match a literal character list at the front of the input; returns the rest
on success.  (Used for exact, case-sensitive occurrences.) -/
def matchExact : List Char → List Char → Option (List Char)
  | [], xs => some xs
  | _ :: _, [] => none
  | p :: ps, x :: xs => if p = x then matchExact ps xs else none

/-- `xs` ends with the suffix `suf` (Python `str.endswith`). -/
def endsWithList (xs suf : List Char) : Bool :=
  (matchExact suf.reverse xs.reverse).isSome

/-- Python `str.strip()`: remove leading and trailing whitespace. -/
def pyStripWs (cs : List Char) : List Char :=
  ((cs.dropWhile isWsp).reverse.dropWhile isWsp).reverse

/-- Worker for `pySplit`: accumulates the current word (reversed) while
scanning. -/
def pySplitGo : List Char → List Char → List (List Char)
  | [], acc => if acc.isEmpty then [] else [acc.reverse]
  | c :: cs, acc =>
    if isWsp c then
      if acc.isEmpty then pySplitGo cs [] else acc.reverse :: pySplitGo cs []
    else pySplitGo cs (c :: acc)

/-- Python `str.split()` with no argument: split on runs of whitespace and
drop empty pieces. -/
def pySplit (s : String) : List String :=
  (pySplitGo s.data []).map (fun w => ⟨w⟩)

/-- The multiplicity of the most frequent element of `ws`
(`collections.Counter(ws).most_common(1)[0][1]`); `0` for the empty list. -/
def maxCount (ws : List String) : Nat :=
  ws.foldr (fun w m => max (ws.count w) m) 0

/-- Code-point lexicographic order on character lists: the order Python uses to
compare strings (`sorted` in `get_new_audio_files`). -/
def lexLe : List Char → List Char → Bool
  | [], _ => true
  | _ :: _, [] => false
  | a :: as, b :: bs =>
    if a.toNat < b.toNat then true
    else if b.toNat < a.toNat then false
    else lexLe as bs

/-- String comparison by code point (Python `<=` on `str`). -/
def strLe (a b : String) : Bool := lexLe a.data b.data

/-- Insert into a `strLe`-sorted list, keeping it sorted. -/
def insertSorted (x : String) : List String → List String
  | [] => [x]
  | y :: ys => if strLe x y then x :: y :: ys else y :: insertSorted x ys

/-- Ascending sort by code point: the model of Python's `sorted` on a set of
filenames. -/
def sortStrings (l : List String) : List String := l.foldr insertSorted []

-- ============================================================================
-- process_dispatcher.get_new_audio_files
-- ============================================================================

/-- The fixed audio-extension allow-set of `get_new_audio_files`. -/
def AUDIO_EXTENSIONS : List String := [".mp3", ".wav", ".m4a", ".flac"]

/-- `f.lower().endswith(audio_extensions)`: lowercase the name and test each
allowed extension. -/
def hasAudioExt (f : String) : Bool :=
  AUDIO_EXTENSIONS.any (fun e => endsWithList (f.data.map Char.toLower) e.data)

/-- `get_new_audio_files(watch_folder, processed_folder)`.  Directories are
modelled by their name listings (a missing directory lists as `[]`, matching
the source's existence checks).  The source builds the *set* of audio-suffixed
names in the watch folder (modelled by `dedup`), removes the set of processed
names, and returns the sorted result. -/
def get_new_audio_files (watch processed : List String) : List String :=
  sortStrings (((watch.filter hasAudioExt).dedup).filter (fun f => !(processed.contains f)))

-- ============================================================================
-- Order lemmas for the sort
-- ============================================================================

theorem lexLe_cons (x y : Char) (xs ys : List Char) :
    lexLe (x :: xs) (y :: ys) =
      (x.toNat < y.toNat || (x.toNat == y.toNat && lexLe xs ys)) := by
  simp only [lexLe]
  by_cases h1 : x.toNat < y.toNat
  · simp [h1]
  · by_cases h2 : y.toNat < x.toNat
    · have h3 : ¬ (x.toNat == y.toNat) = true := by simp; omega
      simp [h1, h2, h3]
    · have h3 : (x.toNat == y.toNat) = true := by simp; omega
      simp [h1, h2, h3]

theorem lexLe_total (a b : List Char) : lexLe a b = true ∨ lexLe b a = true := by
  induction a generalizing b with
  | nil => left; rfl
  | cons x xs ih =>
    cases b with
    | nil => right; rfl
    | cons y ys =>
      rw [lexLe_cons, lexLe_cons]
      simp only [Bool.or_eq_true, Bool.and_eq_true, beq_iff_eq, decide_eq_true_eq]
      rcases Nat.lt_trichotomy x.toNat y.toNat with h | h | h
      · left; left; exact h
      · rcases ih ys with h2 | h2
        · left; right; exact ⟨h, h2⟩
        · right; right; exact ⟨h.symm, h2⟩
      · right; left; exact h

theorem lexLe_trans {a b c : List Char} (h1 : lexLe a b = true)
    (h2 : lexLe b c = true) : lexLe a c = true := by
  induction a generalizing b c with
  | nil => rfl
  | cons x xs ih =>
    cases b with
    | nil => simp [lexLe] at h1
    | cons y ys =>
      cases c with
      | nil => simp [lexLe] at h2
      | cons z zs =>
        rw [lexLe_cons] at h1 h2 ⊢
        simp only [Bool.or_eq_true, Bool.and_eq_true, beq_iff_eq,
          decide_eq_true_eq] at h1 h2 ⊢
        rcases h1 with h1 | ⟨h1e, h1t⟩ <;> rcases h2 with h2 | ⟨h2e, h2t⟩
        · left; omega
        · left; omega
        · left; omega
        · right; exact ⟨by omega, ih h1t h2t⟩

theorem strLe_total (a b : String) : strLe a b = true ∨ strLe b a = true :=
  lexLe_total a.data b.data

theorem strLe_trans {a b c : String} (h1 : strLe a b = true)
    (h2 : strLe b c = true) : strLe a c = true :=
  lexLe_trans h1 h2

theorem insertSorted_cons_pos (x y : String) (ys : List String)
    (h : strLe x y = true) : insertSorted x (y :: ys) = x :: y :: ys := by
  simp [insertSorted, h]

theorem insertSorted_cons_neg (x y : String) (ys : List String)
    (h : ¬ strLe x y = true) :
    insertSorted x (y :: ys) = y :: insertSorted x ys := by
  simp [insertSorted, h]

theorem mem_insertSorted (a x : String) (l : List String) :
    a ∈ insertSorted x l ↔ a = x ∨ a ∈ l := by
  induction l with
  | nil => simp [insertSorted]
  | cons y ys ih =>
    by_cases h : strLe x y = true
    · rw [insertSorted_cons_pos x y ys h]
      simp [List.mem_cons]
    · rw [insertSorted_cons_neg x y ys h]
      simp only [List.mem_cons, ih]
      tauto

theorem perm_insertSorted (x : String) (l : List String) :
    List.Perm (insertSorted x l) (x :: l) := by
  induction l with
  | nil => exact List.Perm.refl _
  | cons y ys ih =>
    by_cases h : strLe x y = true
    · rw [insertSorted_cons_pos x y ys h]
    · rw [insertSorted_cons_neg x y ys h]
      exact ((ih.cons y).trans (List.Perm.swap x y ys))

theorem pairwise_insertSorted (x : String) (l : List String)
    (hl : List.Pairwise (fun a b => strLe a b = true) l) :
    List.Pairwise (fun a b => strLe a b = true) (insertSorted x l) := by
  induction l with
  | nil => simp [insertSorted]
  | cons y ys ih =>
    rw [List.pairwise_cons] at hl
    obtain ⟨hy, hys⟩ := hl
    by_cases h : strLe x y = true
    · rw [insertSorted_cons_pos x y ys h]
      refine List.Pairwise.cons ?_ (List.Pairwise.cons hy hys)
      intro b hb
      rcases List.mem_cons.mp hb with rfl | hb
      · exact h
      · exact strLe_trans h (hy b hb)
    · have hyx : strLe y x = true := by
        rcases strLe_total x y with h' | h'
        · exact absurd h' h
        · exact h'
      rw [insertSorted_cons_neg x y ys h]
      refine List.Pairwise.cons ?_ (ih hys)
      intro b hb
      rcases (mem_insertSorted b x ys).mp hb with rfl | hb
      · exact hyx
      · exact hy b hb

theorem mem_sortStrings (a : String) (l : List String) :
    a ∈ sortStrings l ↔ a ∈ l := by
  induction l with
  | nil => simp [sortStrings]
  | cons x xs ih =>
    show a ∈ insertSorted x (sortStrings xs) ↔ _
    rw [mem_insertSorted]
    simp [ih, List.mem_cons]

theorem perm_sortStrings (l : List String) : List.Perm (sortStrings l) l := by
  induction l with
  | nil => exact List.Perm.refl _
  | cons x xs ih =>
    exact (perm_insertSorted x (sortStrings xs)).trans (ih.cons x)

theorem pairwise_sortStrings (l : List String) :
    List.Pairwise (fun a b => strLe a b = true) (sortStrings l) := by
  induction l with
  | nil => exact List.Pairwise.nil
  | cons x xs ih => exact pairwise_insertSorted x _ ih

theorem nodup_sortStrings {l : List String} (h : l.Nodup) :
    (sortStrings l).Nodup := ((perm_sortStrings l).nodup_iff).mpr h

theorem contains_false_iff (l : List String) (a : String) :
    (!(l.contains a)) = true ↔ a ∉ l := by
  simp [List.contains, List.elem_iff]

/-- C7: `get_new_audio_files` returns exactly the code-point-sorted, duplicate-free
sequence of filenames that are in the watch directory with an extension in the
four-member audio allow-set and absent by name from the processed directory; a
name in both directories is never returned, and a name only in the watch
directory is returned on every scan (the function is a pure function of the two
listings) until it is moved. -/
theorem claim_C7_list_ready (watch processed : List String) (f : String) :
    (f ∈ get_new_audio_files watch processed ↔
      f ∈ watch ∧ hasAudioExt f = true ∧ f ∉ processed) ∧
    List.Pairwise (fun a b => strLe a b = true) (get_new_audio_files watch processed) ∧
    (get_new_audio_files watch processed).Nodup := by
  refine ⟨?_, ?_, ?_⟩
  · unfold get_new_audio_files
    rw [mem_sortStrings, List.mem_filter, List.mem_dedup, List.mem_filter,
      contains_false_iff]
    tauto
  · exact pairwise_sortStrings _
  · exact nodup_sortStrings (((watch.filter hasAudioExt).nodup_dedup).filter _)

-- ============================================================================
-- process_dispatcher.strip_dispatcher_header
--
-- The source removes the leftmost match of the anchored, case-insensitive
-- pattern
--   ^.*?(?:county\s+)?dispatch\s+(?:to|with)\s+\w+\s+(?:rescue|fire|ambulance|ems)[\.\,]?\s*
-- then strips the remainder and removes a residual leading unit word
-- (^(?:rescue|fire|ambulance|ems)[\.\,\s]+) and residual leading punctuation
-- (^[\s,\.\-:]+).  The matcher below implements exactly this pattern: the lazy
-- `.*?` is the position scan in `findHeaderEnd` (stopping at a newline, which
-- `.` does not match), and the greedy pieces are maximal-munch, which agrees
-- with backtracking here because every adjacent pair of sub-patterns has
-- disjoint first-character sets.
-- ============================================================================

/-- Case-insensitive literal match (pattern given in lowercase); returns the
rest of the input on success. -/
def lcMatch : List Char → List Char → Option (List Char)
  | [], xs => some xs
  | _ :: _, [] => none
  | p :: ps, x :: xs => if x.toLower = p then lcMatch ps xs else none

/-- Greedy `+` over a character class: consume a maximal non-empty run. -/
def plusMunch (p : Char → Bool) : List Char → Option (List Char)
  | [] => none
  | x :: xs => if p x then some (xs.dropWhile p) else none

/-- One of the unit words `rescue|fire|ambulance|ems` (case-insensitive). -/
def matchUnitWord (xs : List Char) : Option (List Char) :=
  lcMatch "rescue".data xs <|> lcMatch "fire".data xs <|>
    lcMatch "ambulance".data xs <|> lcMatch "ems".data xs

/-- The part of the header pattern after the optional `county\s+` group:
`dispatch\s+(?:to|with)\s+\w+\s+(?:rescue|fire|ambulance|ems)[\.\,]?\s*`. -/
def afterDispatch (xs : List Char) : Option (List Char) :=
  (lcMatch "dispatch".data xs).bind fun r1 =>
  (plusMunch isWsp r1).bind fun r2 =>
  ((lcMatch "to".data r2).orElse (fun _ => lcMatch "with".data r2)).bind fun r3 =>
  (plusMunch isWsp r3).bind fun r4 =>
  (plusMunch isWordCh r4).bind fun r5 =>
  (plusMunch isWsp r5).bind fun r6 =>
  (matchUnitWord r6).map fun r7 =>
    (match r7 with
      | c :: rest => if c = '.' || c = ',' then rest else r7
      | [] => r7).dropWhile isWsp

/-- The full header pattern at one position, including the optional
`(?:county\s+)?` group (with the regex's backtracking into the empty
alternative). -/
def matchHeaderCore (xs : List Char) : Option (List Char) :=
  match (lcMatch "county".data xs).bind (plusMunch isWsp) with
  | some r =>
    match afterDispatch r with
    | some out => some out
    | none => afterDispatch xs
  | none => afterDispatch xs

/-- `re.search` of the anchored pattern: the lazy `.*?` advances the match
position one character at a time; `.` does not match a newline, so the scan
stops there.  Returns the input after the match end, if any. -/
def findHeaderEnd (xs : List Char) : Option (List Char) :=
  match matchHeaderCore xs with
  | some rest => some rest
  | none =>
    match xs with
    | [] => none
    | c :: rest => if c = '\n' then none else findHeaderEnd rest

/-- Characters of the residual class `[\.\,\s]` . -/
def isResidPunct (c : Char) : Bool := c = '.' || c = ',' || isWsp c

/-- `re.sub(r"^(?:rescue|fire|ambulance|ems)[\.\,\s]+", "", ...)` (anchored, so
at most one replacement). -/
def stripResidualUnit (cs : List Char) : List Char :=
  match matchUnitWord cs with
  | some r =>
    match plusMunch isResidPunct r with
    | some r2 => r2
    | none => cs
  | none => cs

/-- Characters of the leading-punctuation class `[\s,\.\-:]`. -/
def isLeadPunct (c : Char) : Bool :=
  isWsp c || c = ',' || c = '.' || c = '-' || c = ':'

/-- `re.sub(r"^[\s,\.\-:]+", "", ...)` (anchored). -/
def stripLeadingPunct (cs : List Char) : List Char := cs.dropWhile isLeadPunct

/-- `strip_dispatcher_header(text)`: if the header pattern matches, keep the
text after the match, strip it, and remove residual unit-word fragments and
leading punctuation; otherwise return the text unchanged. -/
def strip_dispatcher_header (t : String) : String :=
  match findHeaderEnd t.data with
  | some rest => ⟨stripLeadingPunct (stripResidualUnit (pyStripWs rest))⟩
  | none => t

-- ============================================================================
-- Tone-artifact removal and whitespace collapsing
--
-- `re.sub(r'\b[BObo]+[Oo]{4,}\b', '', text)`: because every class character is
-- a word character and the pattern is bracketed by word boundaries, a match is
-- exactly a maximal word-character run consisting only of B/O/b/o, of length at
-- least 5, whose last four characters are all O/o.  Then
-- `re.sub(r'\s{2,}', ' ', text).strip()` collapses every run of two or more
-- whitespace characters to a single space and strips the ends.
-- ============================================================================

def isToneChar (c : Char) : Bool := c = 'B' || c = 'O' || c = 'b' || c = 'o'

def isOChar (c : Char) : Bool := c = 'O' || c = 'o'

/-- A whole word (maximal word-character run) matched by `\b[BObo]+[Oo]{4,}\b`. -/
def isToneWord (w : List Char) : Bool :=
  w.all isToneChar && decide (5 ≤ w.length) && (w.reverse.take 4).all isOChar

/-- Emit an accumulated (reversed) word-character run, deleting it when it is a
tone artifact. -/
def emitToneRun (run : List Char) : List Char :=
  let w := run.reverse
  if isToneWord w then [] else w

/-- Scan for the tone substitution: `run` accumulates the current
word-character run in reverse. -/
def toneGo : List Char → List Char → List Char
  | [], run => emitToneRun run
  | c :: cs, run =>
    if isWordCh c then toneGo cs (c :: run)
    else emitToneRun run ++ c :: toneGo cs []

/-- `re.sub(r'\b[BObo]+[Oo]{4,}\b', '', text)`. -/
def removeToneWords (cs : List Char) : List Char := toneGo cs []

/-- Emit an accumulated (reversed) whitespace run for `\s{2,}` → `' '`:
runs of length ≥ 2 become a single space, a single whitespace character is
kept as-is. -/
def emitWsRun (run : List Char) : List Char :=
  if 2 ≤ run.length then [' '] else run.reverse

/-- Scan for `re.sub(r'\s{2,}', ' ', text)`. -/
def collapseGo : List Char → List Char → List Char
  | [], run => emitWsRun run
  | c :: cs, run =>
    if isWsp c then collapseGo cs (c :: run)
    else emitWsRun run ++ c :: collapseGo cs []

/-- `re.sub(r'\s{2,}', ' ', text)`. -/
def collapseWsp (cs : List Char) : List Char := collapseGo cs []

-- ============================================================================
-- Python str.replace and apply_exact_corrections
-- ============================================================================

/-- Scanner for `str.replace`: replaces leftmost non-overlapping occurrences;
`skip` counts pattern characters still to consume after a replacement. -/
def pyRepGo (pat rep : List Char) : List Char → Nat → List Char
  | [], _ => []
  | _ :: xs, k + 1 => pyRepGo pat rep xs k
  | x :: xs, 0 =>
    match matchExact pat (x :: xs) with
    | some _ => rep ++ pyRepGo pat rep xs (pat.length - 1)
    | none => x :: pyRepGo pat rep xs 0

/-- Python `str.replace(old, new)` on character lists (all leftmost
non-overlapping occurrences; the empty pattern inserts `rep` at every
position, as in Python). -/
def pyReplace (xs pat rep : List Char) : List Char :=
  match pat with
  | [] => rep ++ (xs.map (fun c => c :: rep)).flatten
  | _ :: _ => pyRepGo pat rep xs 0

/-- Python `str.replace` on strings. -/
def pyReplaceS (s pat rep : String) : String := ⟨pyReplace s.data pat.data rep.data⟩

/-- ASCII lowercase of a string (Python `str.lower` restricted to ASCII). -/
def strLower (s : String) : String := ⟨s.data.map Char.toLower⟩

/-- ASCII uppercase of a string (Python `str.upper` restricted to ASCII). -/
def strUpper (s : String) : String := ⟨s.data.map Char.toUpper⟩

/-- `apply_exact_corrections(text, corrections)`: for each configured
`(wrong, right)` pair (in configuration order), replace the pair as given,
the lowercased wrong by `right`, and the uppercased wrong by the uppercased
`right`. -/
def apply_exact_corrections (text : String) (corrections : List (String × String)) :
    String :=
  corrections.foldl
    (fun t wr =>
      let t1 := pyReplaceS t wr.1 wr.2
      let t2 := pyReplaceS t1 (strLower wr.1) wr.2
      pyReplaceS t2 (strUpper wr.1) (strUpper wr.2))
    text

-- ============================================================================
-- rapidfuzz model and fuzzy_correct_places
-- ============================================================================

/-- One row update of the longest-common-subsequence table.  `bs` is the rest
of the second string, `prev` the tail of the previous row aligned with `bs`
(its head is the entry on the diagonal), `cur` the entry just computed in the
new row. -/
def lcsRowGo (x : Char) : List Char → List Nat → Nat → List Nat
  | [], _, _ => []
  | _ :: _, [], _ => []
  | bj :: bs, pj :: prest, cur =>
    let nxt := if bj = x then pj + 1 else max cur (prest.headD 0)
    nxt :: lcsRowGo x bs prest nxt

/-- Length of a longest common subsequence, by dynamic programming. -/
def lcsLen (a b : List Char) : Nat :=
  (a.foldl (fun row x => 0 :: lcsRowGo x b row 0) (List.replicate (b.length + 1) 0)).getLastD 0

/-- `rapidfuzz.fuzz.ratio`: the normalized InDel similarity
`100 * (1 - dist/(|a|+|b|))` with `dist = |a|+|b| - 2*lcs`, i.e.
`200*lcs/(|a|+|b|)`; `100` when both strings are empty. -/
def fuzzScore (a b : String) : ℚ :=
  if a.data.length + b.data.length = 0 then 100
  else (200 * lcsLen a.data b.data : ℚ) / ((a.data.length + b.data.length : ℕ) : ℚ)

/-- The best (choice, score) pair over the choice list, earliest index winning
ties (as `rapidfuzz.process.extractOne` does). -/
def bestOf (q : String) : List String → Option (String × ℚ)
  | [] => none
  | c :: cs =>
    match bestOf q cs with
    | none => some (c, fuzzScore q c)
    | some (c2, s2) =>
      if fuzzScore q c < s2 then some (c2, s2) else some (c, fuzzScore q c)

/-- `rapidfuzz.process.extractOne(q, choices, scorer=fuzz.ratio,
score_cutoff=cutoff)`: the best choice, provided its score reaches the
cutoff. -/
def extractOne (q : String) (choices : List String) (cutoff : ℚ) : Option String :=
  match bestOf q choices with
  | none => none
  | some (c, s) => if cutoff ≤ s then some c else none

/-- The punctuation set of `word.strip('.,!?;:')`. -/
def isTokPunct (c : Char) : Bool :=
  c = '.' || c = ',' || c = '!' || c = '?' || c = ';' || c = ':'

/-- Python `word.strip('.,!?;:')`: strips the characters of the set from BOTH
ends of the token (this is what the source does). -/
def stripPunctBoth (cs : List Char) : List Char :=
  ((cs.dropWhile isTokPunct).reverse.dropWhile isTokPunct).reverse

/-- The per-token body of the `fuzzy_correct_places` loop: strip the
punctuation set from both ends, look up the best place name at the cutoff, and
on success substitute it for the stripped core inside the original token via
`str.replace`. -/
def fuzzyWord (place_names : List String) (threshold : ℚ) (w : String) : String :=
  match extractOne ⟨stripPunctBoth w.data⟩ place_names threshold with
  | some m => ⟨pyReplace w.data (stripPunctBoth w.data) m.data⟩
  | none => w

/-- `fuzzy_correct_places(text, place_names, threshold=85)`.  `hasProcess`
models the presence of the optional rapidfuzz dependency (`process` is `None`
when it failed to import). -/
def fuzzy_correct_places (hasProcess : Bool) (text : String)
    (place_names : List String) (threshold : ℚ) : String :=
  if place_names = [] ∨ hasProcess = false then text
  else " ".intercalate ((pySplit text).map (fuzzyWord place_names threshold))

-- ============================================================================
-- post_process_transcription
-- ============================================================================

/-- The configuration record consumed by the correction pipeline
(`exact_corrections`, `place_names`, `strip_dispatcher_headers`). -/
structure CorrectionConfig where
  exact_corrections : List (String × String)
  place_names : List String
  strip_dispatcher_headers : Bool

/-- The fixed sentinel returned by the hallucination guard. -/
def HALLUCINATION_SENTINEL : String :=
  "[HALLUCINATION DETECTED - LIKELY SILENCE OR POOR AUDIO]"

/-- `post_process_transcription(text, config)`: hallucination guard on the raw
text (token count > 10 and the most frequent token's count > 40% of the total,
written as `5*count > 2*total`), then header stripping (if enabled), tone
artifact removal and whitespace collapsing, exact corrections, and fuzzy
place-name correction at threshold 85. -/
def post_process_transcription (hasProcess : Bool) (text : String)
    (config : CorrectionConfig) : String :=
  let words := pySplit text
  if words.length > 10 ∧ 5 * maxCount words > 2 * words.length then
    HALLUCINATION_SENTINEL
  else
    let t1 := if config.strip_dispatcher_headers then strip_dispatcher_header text else text
    let t2 : String := ⟨pyStripWs (collapseWsp (removeToneWords t1.data))⟩
    let t3 := apply_exact_corrections t2 config.exact_corrections
    fuzzy_correct_places hasProcess t3 config.place_names 85

-- ============================================================================
-- Claims C4 and C5
-- ============================================================================

/-- C4: for every raw input whose whitespace-token count exceeds 10 and whose
most frequent token's count exceeds 40% of the total (`5*count > 2*total`),
the correction pipeline returns the fixed hallucination sentinel and performs
none of the later steps (header stripping, tone removal, exact correction,
fuzzy matching), regardless of the configuration. -/
theorem claim_C4_hallucination_guard (hasProcess : Bool) (text : String)
    (config : CorrectionConfig)
    (h1 : (pySplit text).length > 10)
    (h2 : 5 * maxCount (pySplit text) > 2 * (pySplit text).length) :
    post_process_transcription hasProcess text config = HALLUCINATION_SENTINEL := by
  simp only [post_process_transcription]
  rw [if_pos ⟨h1, h2⟩]

/-- Witness for C4 at a concrete input: eleven repetitions of one token,
with header stripping, exact corrections and place names all configured. -/
theorem claim_C4_witness :
    post_process_transcription true "the the the the the the the the the the the"
      ⟨[("the", "a")], ["Crivitz"], true⟩ = HALLUCINATION_SENTINEL :=
  claim_C4_hallucination_guard true _ _ (by decide) (by decide)

/-- C5 counterexample: header stripping is NOT idempotent.  The regex's lazy
`.*?` removes only the leftmost header occurrence, so a text containing two
dispatcher headers still contains one after a single pass, and a second
application strips further. -/
theorem claim_C5_counterexample :
    strip_dispatcher_header
        (strip_dispatcher_header "Dispatch to A Rescue. Dispatch to B Fire. go") ≠
      strip_dispatcher_header "Dispatch to A Rescue. Dispatch to B Fire. go" := by
  decide

/-- C5 (amended): one pass removes only the leftmost dispatcher-header match,
so header stripping is idempotent exactly on the texts whose once-stripped
output contains no further header pattern: if the header search finds nothing
in `strip_dispatcher_header t`, a second application is the identity. -/
theorem claim_C5_amended (t : String)
    (h : findHeaderEnd (strip_dispatcher_header t).data = none) :
    strip_dispatcher_header (strip_dispatcher_header t) = strip_dispatcher_header t := by
  show (match findHeaderEnd (strip_dispatcher_header t).data with
        | some rest =>
            (⟨stripLeadingPunct (stripResidualUnit (pyStripWs rest))⟩ : String)
        | none => strip_dispatcher_header t) = strip_dispatcher_header t
  rw [h]

/-- Witness for C5 (amended) at a concrete input with a single header. -/
theorem claim_C5_witness :
    strip_dispatcher_header (strip_dispatcher_header "Dispatch to A Rescue. ok") =
      strip_dispatcher_header "Dispatch to A Rescue. ok" :=
  claim_C5_amended "Dispatch to A Rescue. ok" (by decide)

-- ============================================================================
-- Claim C6: fuzzy place-name correction per token
-- ============================================================================

/-- The per-token transformation described by claim C6 (definition follows the
claim's words, for comparison with `fuzzyWord`, which embeds the source):
strip only the TRAILING punctuation of the token, query the place-name set
with that, and on a qualifying match substitute the place name, preserving
the token's original trailing punctuation. -/
def fuzzyWordClaim (place_names : List String) (threshold : ℚ) (w : String) : String :=
  match extractOne ⟨(w.data.reverse.dropWhile isTokPunct).reverse⟩ place_names threshold with
  | some m => ⟨m.data ++ (w.data.reverse.takeWhile isTokPunct).reverse⟩
  | none => w

theorem bestOf_sound (q : String) (cs : List String) (c : String) (s : ℚ)
    (h : bestOf q cs = some (c, s)) : c ∈ cs ∧ s = fuzzScore q c := by
  induction cs generalizing c s with
  | nil => simp [bestOf] at h
  | cons x xs ih =>
    rw [bestOf] at h
    cases hb : bestOf q xs with
    | none =>
      rw [hb] at h
      cases h
      exact ⟨List.mem_cons_self _ _, rfl⟩
    | some cs2 =>
      obtain ⟨c2, s2⟩ := cs2
      rw [hb] at h
      dsimp only at h
      by_cases hlt : fuzzScore q x < s2
      · rw [if_pos hlt] at h
        cases h
        obtain ⟨hm, hs⟩ := ih _ _ hb
        exact ⟨List.mem_cons_of_mem _ hm, hs⟩
      · rw [if_neg hlt] at h
        cases h
        exact ⟨List.mem_cons_self _ _, rfl⟩

theorem extractOne_none_of_all_below (q : String) (cs : List String) (cutoff : ℚ)
    (h : ∀ p ∈ cs, fuzzScore q p < cutoff) : extractOne q cs cutoff = none := by
  unfold extractOne
  cases hb : bestOf q cs with
  | none => rfl
  | some pair =>
    obtain ⟨c, s⟩ := pair
    obtain ⟨hm, hs⟩ := bestOf_sound q cs c s hb
    dsimp only
    rw [if_neg]
    rw [hs]
    exact not_le.mpr (h c hm)

theorem matchExact_append (pat rest : List Char) :
    matchExact pat (pat ++ rest) = some rest := by
  induction pat with
  | nil => rfl
  | cons p ps ih => simp [matchExact, ih]

theorem pyRepGo_skip (pat rep ys rest : List Char) :
    pyRepGo pat rep (ys ++ rest) ys.length = pyRepGo pat rep rest 0 := by
  induction ys with
  | nil => rfl
  | cons y ys ih => simpa [pyRepGo] using ih

theorem pyRepGo_cons_none (pat rep : List Char) (x : Char) (xs : List Char)
    (h : matchExact pat (x :: xs) = none) :
    pyRepGo pat rep (x :: xs) 0 = x :: pyRepGo pat rep xs 0 := by
  simp only [pyRepGo]
  rw [h]

theorem pyRepGo_cons_some (pat rep : List Char) (x : Char) (xs r : List Char)
    (h : matchExact pat (x :: xs) = some r) :
    pyRepGo pat rep (x :: xs) 0 = rep ++ pyRepGo pat rep xs (pat.length - 1) := by
  simp only [pyRepGo]
  rw [h]

theorem matchExact_cons_none (p : Char) (ps : List Char) (x : Char) (xs : List Char)
    (h : p ≠ x) : matchExact (p :: ps) (x :: xs) = none := by
  simp [matchExact, h]

theorem pyRepGo_no_occ (p : Char) (ps rep xs : List Char)
    (hp : isTokPunct p = false)
    (hxs : ∀ x ∈ xs, isTokPunct x = true) :
    pyRepGo (p :: ps) rep xs 0 = xs := by
  induction xs with
  | nil => rfl
  | cons x xs ih =>
    have hx : isTokPunct x = true := hxs x (List.mem_cons_self _ _)
    have hpx : p ≠ x := by
      intro heq
      rw [heq, hx] at hp
      exact absurd hp (by decide)
    rw [pyRepGo_cons_none _ _ _ _ (matchExact_cons_none p ps x xs hpx)]
    rw [ih (fun y hy => hxs y (List.mem_cons_of_mem _ hy))]

theorem pyRepGo_punct_skip (p : Char) (ps rep l rest : List Char)
    (hp : isTokPunct p = false)
    (hl : ∀ x ∈ l, isTokPunct x = true) :
    pyRepGo (p :: ps) rep (l ++ rest) 0 = l ++ pyRepGo (p :: ps) rep rest 0 := by
  induction l with
  | nil => rfl
  | cons x l2 ih =>
    have hx : isTokPunct x = true := hl x (List.mem_cons_self _ _)
    have hpx : p ≠ x := by
      intro heq
      rw [heq, hx] at hp
      exact absurd hp (by decide)
    show pyRepGo (p :: ps) rep (x :: (l2 ++ rest)) 0 = x :: (l2 ++ pyRepGo (p :: ps) rep rest 0)
    rw [pyRepGo_cons_none _ _ _ _ (matchExact_cons_none p ps x _ hpx)]
    rw [ih (fun y hy => hl y (List.mem_cons_of_mem _ hy))]

theorem pyRepGo_match_head (p : Char) (ps rep trail : List Char)
    (hp : isTokPunct p = false)
    (htr : ∀ x ∈ trail, isTokPunct x = true) :
    pyRepGo (p :: ps) rep ((p :: ps) ++ trail) 0 = rep ++ trail := by
  have hme : matchExact (p :: ps) (p :: (ps ++ trail)) = some trail := by
    simpa using matchExact_append (p :: ps) trail
  show pyRepGo (p :: ps) rep (p :: (ps ++ trail)) 0 = rep ++ trail
  rw [pyRepGo_cons_some _ _ _ _ _ hme]
  have hlen : (p :: ps).length - 1 = ps.length := by simp
  rw [hlen, pyRepGo_skip (p :: ps) rep ps trail]
  rw [pyRepGo_no_occ p ps rep trail hp htr]

/-- `str.replace` on a token that decomposes into punctuation, a core whose
first character is not punctuation, and trailing punctuation, replaces
exactly the core. -/
theorem pyReplace_decomp (l : List Char) (p : Char) (ps trail rep : List Char)
    (hl : ∀ x ∈ l, isTokPunct x = true)
    (htr : ∀ x ∈ trail, isTokPunct x = true)
    (hp : isTokPunct p = false) :
    pyReplace (l ++ (p :: ps) ++ trail) (p :: ps) rep = l ++ rep ++ trail := by
  show pyRepGo (p :: ps) rep (l ++ (p :: ps) ++ trail) 0 = l ++ rep ++ trail
  rw [List.append_assoc]
  rw [pyRepGo_punct_skip p ps rep l ((p :: ps) ++ trail) hp hl]
  rw [pyRepGo_match_head p ps rep trail hp htr]
  rw [List.append_assoc]

theorem dropWhile_head_false (p : Char → Bool) (l : List Char) (c : Char)
    (cs : List Char) (h : l.dropWhile p = c :: cs) : p c = false := by
  induction l with
  | nil => simp [List.dropWhile] at h
  | cons x xs ih =>
    rw [List.dropWhile_cons] at h
    by_cases hx : p x = true
    · rw [if_pos hx] at h
      exact ih h
    · rw [if_neg hx] at h
      cases h
      exact Bool.not_eq_true _ |>.mp hx

/-- The stripped token sits between the stripped-off leading and trailing
punctuation runs. -/
theorem dropWhile_core_trail (w : List Char) :
    w.dropWhile isTokPunct = stripPunctBoth w ++
      ((w.dropWhile isTokPunct).reverse.takeWhile isTokPunct).reverse := by
  unfold stripPunctBoth
  conv_lhs =>
    rw [← List.reverse_reverse (w.dropWhile isTokPunct),
      ← List.takeWhile_append_dropWhile (p := isTokPunct)
        (l := (w.dropWhile isTokPunct).reverse)]
  rw [List.reverse_append]

theorem stripPunctBoth_decomp (w : List Char) :
    w = w.takeWhile isTokPunct ++ stripPunctBoth w ++
      ((w.dropWhile isTokPunct).reverse.takeWhile isTokPunct).reverse := by
  rw [List.append_assoc, ← dropWhile_core_trail w]
  exact (List.takeWhile_append_dropWhile (p := isTokPunct) (l := w)).symm

theorem stripPunctBoth_head_false (w : List Char) (c : Char) (cs : List Char)
    (h : stripPunctBoth w = c :: cs) : isTokPunct c = false := by
  have hmid := dropWhile_core_trail w
  rw [h] at hmid
  exact dropWhile_head_false isTokPunct w c _ (by simpa using hmid)

theorem fuzzScore_crivitz_self : fuzzScore "Crivitz" "Crivitz" = 100 := by
  have hlen : "Crivitz".data.length = 7 := by decide
  have hlcs : lcsLen "Crivitz".data "Crivitz".data = 7 := by decide
  unfold fuzzScore
  rw [hlen, hlcs]
  norm_num

theorem fuzzScore_comma_crivitz : fuzzScore ",Crivitz" "Crivitz" = 280 / 3 := by
  have hl1 : ",Crivitz".data.length = 8 := by decide
  have hl2 : "Crivitz".data.length = 7 := by decide
  have hlcs : lcsLen ",Crivitz".data "Crivitz".data = 7 := by decide
  unfold fuzzScore
  rw [hl1, hl2, hlcs]
  norm_num

theorem extractOne_crivitz : extractOne "Crivitz" ["Crivitz"] 85 = some "Crivitz" := by
  have hb : bestOf "Crivitz" ["Crivitz"] =
      some ("Crivitz", fuzzScore "Crivitz" "Crivitz") := rfl
  unfold extractOne
  rw [hb]
  show (if (85 : ℚ) ≤ fuzzScore "Crivitz" "Crivitz" then some "Crivitz" else none) =
    some "Crivitz"
  rw [fuzzScore_crivitz_self]
  norm_num

theorem extractOne_comma_crivitz :
    extractOne ",Crivitz" ["Crivitz"] 85 = some "Crivitz" := by
  have hb : bestOf ",Crivitz" ["Crivitz"] =
      some ("Crivitz", fuzzScore ",Crivitz" "Crivitz") := rfl
  unfold extractOne
  rw [hb]
  show (if (85 : ℚ) ≤ fuzzScore ",Crivitz" "Crivitz" then some "Crivitz" else none) =
    some "Crivitz"
  rw [fuzzScore_comma_crivitz]
  norm_num

/-- C6 counterexample: for the single token `,Crivitz` with configured place
name `Crivitz`, the source strips the LEADING comma too before comparing and
keeps it in the output (the result is `,Crivitz`), whereas the claim's
trailing-punctuation-only transformation matches `,Crivitz` against `Crivitz`
at ratio 280/3 ≥ 85 and substitutes, yielding `Crivitz` — so the code's
output differs from what the claim prescribes. -/
theorem claim_C6_counterexample :
    fuzzy_correct_places true ",Crivitz" ["Crivitz"] 85 = ",Crivitz" ∧
    " ".intercalate ((pySplit ",Crivitz").map (fuzzyWordClaim ["Crivitz"] 85)) =
      "Crivitz" ∧
    fuzzy_correct_places true ",Crivitz" ["Crivitz"] 85 ≠
      " ".intercalate ((pySplit ",Crivitz").map (fuzzyWordClaim ["Crivitz"] 85)) := by
  have hsplit : pySplit ",Crivitz" = [",Crivitz"] := by decide
  have h1 : fuzzy_correct_places true ",Crivitz" ["Crivitz"] 85 = ",Crivitz" := by
    unfold fuzzy_correct_places
    rw [if_neg (by simp)]
    rw [hsplit]
    show " ".intercalate [fuzzyWord ["Crivitz"] 85 ",Crivitz"] = ",Crivitz"
    have hw : fuzzyWord ["Crivitz"] 85 ",Crivitz" = ",Crivitz" := by
      unfold fuzzyWord
      rw [show extractOne ⟨stripPunctBoth ",Crivitz".data⟩ ["Crivitz"] 85 =
          some "Crivitz" from extractOne_crivitz]
      decide
    rw [hw]
    decide
  have h2 : " ".intercalate ((pySplit ",Crivitz").map (fuzzyWordClaim ["Crivitz"] 85)) =
      "Crivitz" := by
    rw [hsplit]
    show " ".intercalate [fuzzyWordClaim ["Crivitz"] 85 ",Crivitz"] = "Crivitz"
    have hw : fuzzyWordClaim ["Crivitz"] 85 ",Crivitz" = "Crivitz" := by
      unfold fuzzyWordClaim
      rw [show extractOne ⟨(",Crivitz".data.reverse.dropWhile isTokPunct).reverse⟩
          ["Crivitz"] 85 = some "Crivitz" from extractOne_comma_crivitz]
      decide
    rw [hw]
    decide
  refine ⟨h1, h2, ?_⟩
  rw [h1, h2]
  decide

/-- C6 (amended): the fuzzy step compares each whitespace token with its
LEADING AND trailing punctuation stripped (Python `strip` is two-sided)
against the place-name set; when the best ratio reaches the 85 cutoff and the
stripped core is non-empty it substitutes the matched place name for the core,
preserving both the leading and the trailing punctuation; when every place
name scores below the cutoff, the token passes through unchanged. -/
theorem claim_C6_amended (place_names : List String) (threshold : ℚ) (w : String) :
    ((∀ p ∈ place_names, fuzzScore ⟨stripPunctBoth w.data⟩ p < threshold) →
      fuzzyWord place_names threshold w = w) ∧
    (∀ m, extractOne ⟨stripPunctBoth w.data⟩ place_names threshold = some m →
      stripPunctBoth w.data ≠ [] →
      fuzzyWord place_names threshold w =
        ⟨w.data.takeWhile isTokPunct ++ m.data ++
          ((w.data.dropWhile isTokPunct).reverse.takeWhile isTokPunct).reverse⟩) := by
  constructor
  · intro hbelow
    unfold fuzzyWord
    rw [extractOne_none_of_all_below _ _ _ hbelow]
  · intro m hm hne
    unfold fuzzyWord
    rw [hm]
    cases hc : stripPunctBoth w.data with
    | nil => exact absurd hc hne
    | cons p ps =>
      have hp : isTokPunct p = false := stripPunctBoth_head_false w.data p ps hc
      have hdecomp := stripPunctBoth_decomp w.data
      rw [hc] at hdecomp
      dsimp only
      congr 1
      conv_lhs => rw [hdecomp]
      rw [pyReplace_decomp _ p ps _ m.data
        (fun x hx => List.mem_takeWhile_imp hx)
        (fun x hx => List.mem_takeWhile_imp (List.mem_reverse.mp hx))
        hp]

/-- Witness for C6 (amended) at a concrete input: token `,Crivitz.` with place
name `Crivitz` — the comma and the period are both preserved around the
substituted core. -/
theorem claim_C6_witness :
    fuzzyWord ["Crivitz"] 85 ",Crivitz." =
      ⟨",Crivitz.".data.takeWhile isTokPunct ++ "Crivitz".data ++
        ((",Crivitz.".data.dropWhile isTokPunct).reverse.takeWhile isTokPunct).reverse⟩ :=
  (claim_C6_amended ["Crivitz"] 85 ",Crivitz.").2 "Crivitz" extractOne_crivitz (by decide)

-- ============================================================================
-- pushover_notify.send_pushover
-- ============================================================================

/-- The `pushover` section of the pipeline configuration consumed by
`send_pushover` (`user_keys` list, legacy `user_key`, `api_token`,
`priority`). -/
structure PushoverConfig where
  user_keys : List String
  user_key : String
  api_token : String
  priority : Int

/-- The effective recipient list: the configured `user_keys` list, or the
single legacy `user_key` when the list is empty (and that key is non-empty). -/
def effective_user_keys (cfg : PushoverConfig) : List String :=
  if cfg.user_keys ≠ [] then cfg.user_keys
  else if cfg.user_key ≠ "" then [cfg.user_key] else []

/-- `send_pushover(title, message, config)`.  `resp i` models the outcome of
the HTTP POST for the `i`-th recipient key: `some s` is a response with status
`s`, `none` is a raised exception; both non-200 statuses and exceptions set
`all_success = False` (and the loop continues — nothing already delivered is
undone).  Returns the result flag and the number of requests attempted. -/
def send_pushover (cfg : PushoverConfig) (resp : Nat → Option Nat) : Bool × Nat :=
  if effective_user_keys cfg = [] ∨ cfg.api_token = "" then (false, 0)
  else
    ((List.range (effective_user_keys cfg).length).foldl
        (fun ok i => ok && (resp i == some 200)) true,
      (effective_user_keys cfg).length)

theorem foldl_and_eq (p : Nat → Bool) (l : List Nat) (b : Bool) :
    l.foldl (fun ok i => ok && p i) b = (b && l.all p) := by
  induction l generalizing b with
  | nil => simp
  | cons x xs ih => simp [List.foldl_cons, ih, Bool.and_assoc]

/-- C8: `send_pushover` returns `true` iff the per-recipient request returned
HTTP 200 for every key of the effective recipient list (the configured list,
or the legacy single key when the list is empty); a per-recipient failure
makes the result `false` while the loop still issues one request per
recipient (no rollback, no early exit); with no recipient key or no API token
it returns `false` having sent zero requests. -/
theorem claim_C8_send_pushover (cfg : PushoverConfig) (resp : Nat → Option Nat) :
    ((effective_user_keys cfg = [] ∨ cfg.api_token = "") →
      send_pushover cfg resp = (false, 0)) ∧
    (effective_user_keys cfg ≠ [] → cfg.api_token ≠ "" →
      ((send_pushover cfg resp).1 = true ↔
        ∀ i < (effective_user_keys cfg).length, resp i = some 200) ∧
      (send_pushover cfg resp).2 = (effective_user_keys cfg).length) := by
  constructor
  · intro h
    unfold send_pushover
    rw [if_pos h]
  · intro h1 h2
    unfold send_pushover
    rw [if_neg (by tauto)]
    constructor
    · rw [foldl_and_eq (fun i => resp i == some 200)]
      simp [List.all_eq_true, List.mem_range]
    · rfl

/-- Configuration used by the C8 witness. -/
def demoPushCfg : PushoverConfig := ⟨["k1", "k2"], "", "tok", 1⟩

/-- Witness for C8 at a concrete configuration and all-200 responses. -/
theorem claim_C8_witness :
    ((send_pushover demoPushCfg (fun _ => some 200)).1 = true ↔
      ∀ i < (effective_user_keys demoPushCfg).length,
        (fun _ => some 200 : Nat → Option Nat) i = some 200) ∧
    (send_pushover demoPushCfg (fun _ => some 200)).2 =
      (effective_user_keys demoPushCfg).length :=
  (claim_C8_send_pushover demoPushCfg _).2 (by decide) (by decide)

-- ============================================================================
-- process_dispatcher.append_to_csv (the result ledger)
-- ============================================================================

/-- A transcription result as produced by `transcribe_audio`: raw and
corrected text, audio duration and processing wall-time in seconds
(floats modelled as `ℚ`). -/
structure TranscriptionResult where
  raw_text : String
  corrected_text : String
  duration : ℚ
  transcription_time : ℚ
deriving DecidableEq

/-- One ledger row.  The wall-clock `timestamp` column of the source is not
modelled (the pure model has no clock); the remaining six columns are.
Numeric columns are modelled as the numbers being formatted. -/
structure CsvRow where
  filename : String
  raw_text : String
  corrected_text : String
  audio_duration : ℚ
  transcription_time : ℚ
  realtime_factor : ℚ
deriving DecidableEq

/-- `append_to_csv(csv_path, filename, result)`: append one row; the realtime
factor is `transcription_time / duration` if `duration > 0` and `0`
otherwise (the division is guarded). -/
def append_to_csv (csv : List CsvRow) (filename : String)
    (result : TranscriptionResult) : List CsvRow :=
  csv ++ [{ filename := filename
            raw_text := result.raw_text
            corrected_text := result.corrected_text
            audio_duration := result.duration
            transcription_time := result.transcription_time
            realtime_factor :=
              if result.duration > 0 then
                result.transcription_time / result.duration
              else 0 }]

/-- C9: for every row appended to the ledger, a non-positive audio duration
records a realtime factor of 0 (the division-by-zero branch is unreachable:
the division appears only under the `duration > 0` guard), and a positive
duration records `transcription_time / duration`. -/
theorem claim_C9_realtime_factor (csv : List CsvRow) (fn : String)
    (r : TranscriptionResult) (row : CsvRow)
    (hrow : row ∈ append_to_csv csv fn r) (hnew : row ∉ csv) :
    (r.duration ≤ 0 → row.realtime_factor = 0) ∧
    (0 < r.duration → row.realtime_factor = r.transcription_time / r.duration) := by
  unfold append_to_csv at hrow
  rw [List.mem_append] at hrow
  rcases hrow with h | h
  · exact absurd h hnew
  · rw [List.mem_singleton] at h
    subst h
    constructor
    · intro hd
      show (if r.duration > 0 then r.transcription_time / r.duration else 0) = 0
      rw [if_neg (not_lt.mpr hd)]
    · intro hd
      show (if r.duration > 0 then r.transcription_time / r.duration else 0) =
        r.transcription_time / r.duration
      rw [if_pos hd]

/-- A transcription result with zero duration, for the C9 witness. -/
def demoResult0 : TranscriptionResult := ⟨"raw", "cor", 0, 7⟩

/-- The row `append_to_csv` produces for `demoResult0`. -/
def demoRow0 : CsvRow := ⟨"f.mp3", "raw", "cor", 0, 7, 0⟩

/-- Witness for C9 at a concrete zero-duration result. -/
theorem claim_C9_witness :
    (demoResult0.duration ≤ 0 → demoRow0.realtime_factor = 0) ∧
    (0 < demoResult0.duration →
      demoRow0.realtime_factor = demoResult0.transcription_time / demoResult0.duration) :=
  claim_C9_realtime_factor [] "f.mp3" demoResult0 demoRow0 (by decide) (by decide)

-- ============================================================================
-- active911.get_recent_alert: field extraction (step 3)
-- ============================================================================

/-- A JSON-ish value as it appears in the alert detail payload. -/
inductive PyVal where
  | vnum (q : ℚ)
  | vstr (s : String)
  | vnone
deriving DecidableEq

/-- Python truthiness of such a value (`0`, `''` and `None` are falsy). -/
def pvTruthy : PyVal → Bool
  | .vnum q => q != 0
  | .vstr s => s != ""
  | .vnone => false

/-- Python's `a or b`: `a` when truthy, otherwise `b`. -/
def pyOr (a b : PyVal) : PyVal := if pvTruthy a then a else b

/-- The alert-detail payload fields the extraction step reads; `none` models a
missing key (`dict.get` then yields Python `None`, modelled `PyVal.vnone`). -/
structure AlertDetail where
  address : Option String
  city : Option String
  state : Option String
  lat : Option PyVal
  latitude : Option PyVal
  lon : Option PyVal
  longitude : Option PyVal
  description : Option String
  received : Option String

/-- The structured record built by step 3 of `get_recent_alert`. -/
structure AlertRecord where
  address : String
  city : String
  state : String
  latitude : PyVal
  longitude : PyVal
  description : String
  received : String

/-- Step 3 of `get_recent_alert`: string fields default to `''`, and the
coordinates are `alert.get('lat') or alert.get('latitude')` (resp. `lon` /
`longitude`). -/
def extract_alert_fields (a : AlertDetail) : AlertRecord :=
  { address := a.address.getD ""
    city := a.city.getD ""
    state := a.state.getD ""
    latitude := pyOr (a.lat.getD .vnone) (a.latitude.getD .vnone)
    longitude := pyOr (a.lon.getD .vnone) (a.longitude.getD .vnone)
    description := a.description.getD ""
    received := a.received.getD "" }

/-- C10: the returned latitude (resp. longitude) is the `lat` (`lon`) payload
value only when that value is truthy; whenever `lat` (`lon`) is not truthy —
in particular when it is the number 0 — the returned coordinate is the
`latitude` (`longitude`) variant's value, or `None` when the variant is
missing; so a literal zero carried in `lat`/`lon` is never passed through
from that field. -/
theorem claim_C10_coordinate_extraction (a : AlertDetail) :
    (pvTruthy (a.lat.getD .vnone) = true →
      (extract_alert_fields a).latitude = a.lat.getD .vnone) ∧
    (pvTruthy (a.lat.getD .vnone) = false →
      (extract_alert_fields a).latitude = a.latitude.getD .vnone) ∧
    (a.lat = some (.vnum 0) →
      (extract_alert_fields a).latitude = a.latitude.getD .vnone) ∧
    (pvTruthy (a.lon.getD .vnone) = true →
      (extract_alert_fields a).longitude = a.lon.getD .vnone) ∧
    (pvTruthy (a.lon.getD .vnone) = false →
      (extract_alert_fields a).longitude = a.longitude.getD .vnone) ∧
    (a.lon = some (.vnum 0) →
      (extract_alert_fields a).longitude = a.longitude.getD .vnone) := by
  refine ⟨?_, ?_, ?_, ?_, ?_, ?_⟩
  · intro h
    show pyOr (a.lat.getD .vnone) (a.latitude.getD .vnone) = a.lat.getD .vnone
    unfold pyOr
    rw [if_pos h]
  · intro h
    show pyOr (a.lat.getD .vnone) (a.latitude.getD .vnone) = a.latitude.getD .vnone
    unfold pyOr
    rw [if_neg (by rw [h]; exact Bool.false_ne_true)]
  · intro h
    show pyOr (a.lat.getD .vnone) (a.latitude.getD .vnone) = a.latitude.getD .vnone
    unfold pyOr
    rw [h]
    rw [if_neg (by decide)]
  · intro h
    show pyOr (a.lon.getD .vnone) (a.longitude.getD .vnone) = a.lon.getD .vnone
    unfold pyOr
    rw [if_pos h]
  · intro h
    show pyOr (a.lon.getD .vnone) (a.longitude.getD .vnone) = a.longitude.getD .vnone
    unfold pyOr
    rw [if_neg (by rw [h]; exact Bool.false_ne_true)]
  · intro h
    show pyOr (a.lon.getD .vnone) (a.longitude.getD .vnone) = a.longitude.getD .vnone
    unfold pyOr
    rw [h]
    rw [if_neg (by decide)]

/-- An alert payload whose `lat`/`lon` carry literal zeros, for the C10
witness (`latitude` present, `longitude` missing). -/
def demoAlert : AlertDetail :=
  ⟨some "123 Main", some "Wausaukee", some "WI", some (.vnum 0), some (.vnum 45),
    some (.vnum 0), none, some "MVA", some "now"⟩

/-- Witness for C10: with `lat = 0` the `latitude` variant is returned, and
with `lon = 0` and `longitude` missing the result is `None`. -/
theorem claim_C10_witness :
    (extract_alert_fields demoAlert).latitude = demoAlert.latitude.getD .vnone ∧
    (extract_alert_fields demoAlert).longitude = demoAlert.longitude.getD .vnone :=
  ⟨(claim_C10_coordinate_extraction demoAlert).2.2.1 rfl,
    (claim_C10_coordinate_extraction demoAlert).2.2.2.2.2 rfl⟩

-- ============================================================================
-- active911 token management
--
-- `_is_token_valid` first tries `float(expiration)` followed by
-- `datetime.fromtimestamp`, then falls back to
-- `datetime.fromisoformat(str(expiration))`, and treats a falsy or
-- unparseable expiration as invalid.  The CPython parsing routines are
-- external collaborators and are modelled as abstract partial parsers on the
-- shared epoch-seconds timeline `ℚ`; in particular `datetime.fromtimestamp`
-- is a PARTIAL map — it raises (`ValueError`/`OSError`, both caught by the
-- source) for epoch values outside the platform's representable datetime
-- range, which routes such values to the ISO fallback and from there to
-- "expired".  (The uncaught `OverflowError` CPython raises for
-- astronomically large magnitudes on some platforms would crash the caller
-- and is outside the model.)  `datetime.now()` is the explicit parameter
-- `now`.
-- ============================================================================

/-- A JSON value as stored in the `token_expiration` field. -/
inductive JVal where
  | jnum (q : ℚ)
  | jstr (s : String)
  | jnull
deriving DecidableEq

/-- Python truthiness of such a value (`0`, `''`, `None` are falsy). -/
def jvTruthy : JVal → Bool
  | .jnum q => q != 0
  | .jstr s => s != ""
  | .jnull => false

/-- The CPython routines used by `_is_token_valid`, as abstract partial
functions: `pyFloat s` models `float(s)` for a string argument; `fromIso s`
models `datetime.fromisoformat(s)` as epoch seconds; `fromTimestamp q`
models `datetime.fromtimestamp(q)` as a partial map on epoch seconds — it is
`none` where CPython raises a (caught) `ValueError`/`OSError`, i.e. outside
the platform's representable datetime range. -/
structure StrParsers where
  pyFloat : String → Option ℚ
  fromIso : String → Option ℚ
  fromTimestamp : ℚ → Option ℚ

/-- The numeric attempt `datetime.fromtimestamp(float(expiration))`: numbers
float-parse as themselves and strings via `pyFloat` (`None` raises
`TypeError`), and the result must additionally be accepted by
`fromTimestamp`; a failure of either step routes to the ISO fallback. -/
def parseExpNumeric (P : StrParsers) : JVal → Option ℚ
  | .jnum q => P.fromTimestamp q
  | .jstr s => (P.pyFloat s).bind P.fromTimestamp
  | .jnull => none

/-- The `datetime.fromisoformat(str(expiration))` fallback, reached when the
numeric attempt failed (`float` raised, or `fromtimestamp` raised on an
out-of-range value): only a string can succeed here — `str(None)` is
`"None"`, and the string form of a float is not an ISO timestamp. -/
def parseExpIsoFallback (P : StrParsers) : JVal → Option ℚ
  | .jstr s => P.fromIso s
  | _ => none

/-- `TOKEN_EXPIRY_BUFFER_MINUTES = 5`, in seconds. -/
def TOKEN_EXPIRY_BUFFER_SECONDS : ℚ := 300

/-- `_is_token_valid(expiration)`: falsy values are invalid; otherwise parse
(numeric first, ISO fallback) and require
`now < expiration - buffer`; unparseable values are invalid. -/
def is_token_valid (P : StrParsers) (now : ℚ) (expiration : JVal) : Bool :=
  if jvTruthy expiration = false then false
  else
    match parseExpNumeric P expiration with
    | some t => decide (now < t - TOKEN_EXPIRY_BUFFER_SECONDS)
    | none =>
      match parseExpIsoFallback P expiration with
      | some t => decide (now < t - TOKEN_EXPIRY_BUFFER_SECONDS)
      | none => false

/-- The persisted credential store `active911_config.json`
(`config.get(..., '')` defaults are already applied). -/
structure A911Config where
  refresh_token : String
  access_token : String
  token_expiration : JVal
deriving DecidableEq

/-- `_refresh_access_token(refresh_token)`.  `resp` models the HTTP exchange:
`none` is a transport or JSON-decode failure; `some (tok?, exp)` is a decoded
body with its `access_token` field (`none` when missing) and `expiration`
field.  A missing or empty access token in the body yields failure. -/
def refresh_access_token (resp : Option (Option String × JVal)) :
    Option (String × JVal) :=
  match resp with
  | none => none
  | some (tok?, exp) =>
    match tok? with
    | none => none
    | some tok => if tok = "" then none else some (tok, exp)

/-- The placeholder value treated as "not configured". -/
def PLACEHOLDER_REFRESH_TOKEN : String := "your_refresh_token_here"

/-- `_get_valid_token()`.  `env_token` is the `ACTIVE911_TOKEN` environment
variable (`""` when unset), `cfg` the loaded credential store, `resp` the
refresh-endpoint outcome, `saveOk` whether the `_save_config` write succeeds
(its exceptions are swallowed).  Returns the token handed to the caller,
whether a refresh request was issued, and the durable store contents after
the call. -/
def get_valid_token (P : StrParsers) (now : ℚ) (env_token : String)
    (cfg : A911Config) (resp : Option (Option String × JVal)) (saveOk : Bool) :
    Option String × Bool × A911Config :=
  if env_token ≠ "" then (some env_token, false, cfg)
  else if cfg.refresh_token = "" ∨ cfg.refresh_token = PLACEHOLDER_REFRESH_TOKEN then
    (none, false, cfg)
  else if cfg.access_token ≠ "" ∧ is_token_valid P now cfg.token_expiration = true then
    (some cfg.access_token, false, cfg)
  else
    match refresh_access_token resp with
    | none => (none, true, cfg)
    | some (tok, exp) =>
      (some tok, true,
        if saveOk then { cfg with access_token := tok, token_expiration := exp }
        else cfg)

/-- The expiration parse described by claim C2 as stated: ANY numeric value
(number or numeric string) is epoch seconds, otherwise an ISO-8601 string.
(Definition follows the claim's words, for comparison with the source's
parse; the counterexample below shows the source does not implement it —
`fromtimestamp` rejects out-of-range numerics.) -/
def claimParsedExp (P : StrParsers) : JVal → Option ℚ
  | .jnum q => some q
  | .jstr s =>
    match P.pyFloat s with
    | some t => some t
    | none => P.fromIso s
  | .jnull => none

/-- The expiration parse of the AMENDED claim C2: a numeric value (number or
numeric string) is epoch seconds provided `fromtimestamp` accepts it (it
fails outside the platform's representable range); on numeric failure an
ISO-8601 parse of the string form is attempted. -/
def claimParsedExpAmended (P : StrParsers) : JVal → Option ℚ
  | .jnum q => P.fromTimestamp q
  | .jstr s =>
    match (P.pyFloat s).bind P.fromTimestamp with
    | some t => some t
    | none => P.fromIso s
  | .jnull => none

theorem is_token_valid_iff (P : StrParsers) (now : ℚ) (e : JVal)
    (hP1 : P.pyFloat "" = none) (hP2 : P.fromIso "" = none)
    (hFT : ∀ q t, P.fromTimestamp q = some t → t = q) (hnow : 0 ≤ now) :
    is_token_valid P now e = true ↔
      ∃ t, claimParsedExpAmended P e = some t ∧
        now < t - TOKEN_EXPIRY_BUFFER_SECONDS := by
  cases e with
  | jnull => simp [is_token_valid, jvTruthy, claimParsedExpAmended]
  | jnum q =>
    by_cases hq : q = 0
    · subst hq
      constructor
      · intro h
        simp [is_token_valid, jvTruthy] at h
      · rintro ⟨t, ht, hlt⟩
        simp only [claimParsedExpAmended] at ht
        have h0 := hFT 0 t ht
        subst h0
        exfalso
        have hb : TOKEN_EXPIRY_BUFFER_SECONDS = 300 := rfl
        rw [hb] at hlt
        linarith
    · have htr : jvTruthy (JVal.jnum q) = true := by simp [jvTruthy, hq]
      cases hf : P.fromTimestamp q with
      | some t =>
        simp [is_token_valid, htr, parseExpNumeric, claimParsedExpAmended, hf]
      | none =>
        simp [is_token_valid, htr, parseExpNumeric, parseExpIsoFallback,
          claimParsedExpAmended, hf]
  | jstr s =>
    by_cases hs : s = ""
    · subst hs
      simp [is_token_valid, jvTruthy, claimParsedExpAmended, hP1, hP2]
    · have htr : jvTruthy (JVal.jstr s) = true := by simp [jvTruthy, hs]
      cases hf : (P.pyFloat s).bind P.fromTimestamp with
      | some t =>
        simp [is_token_valid, htr, parseExpNumeric, claimParsedExpAmended, hf]
      | none =>
        cases hi : P.fromIso s with
        | some t =>
          simp [is_token_valid, htr, parseExpNumeric, parseExpIsoFallback,
            claimParsedExpAmended, hf, hi]
        | none =>
          simp [is_token_valid, htr, parseExpNumeric, parseExpIsoFallback,
            claimParsedExpAmended, hf, hi]

/-- Abstract parsers for the C2/C3 theorems' concrete instances: the two
string parsers fail on every string, and `fromtimestamp` accepts exactly the
epoch values below the platform ceiling 253402300800 (the first instant of
year 10000, beyond CPython's maximum datetime year 9999). -/
def demoParsers : StrParsers :=
  ⟨fun _ => none, fun _ => none,
    fun q => if q < 253402300800 then some q else none⟩

theorem demoParsers_fromTimestamp_id (q t : ℚ)
    (h : demoParsers.fromTimestamp q = some t) : t = q := by
  unfold demoParsers at h
  dsimp only at h
  by_cases hq : q < 253402300800
  · rw [if_pos hq] at h
    exact (Option.some_inj.mp h).symm
  · rw [if_neg hq] at h
    exact absurd h (by simp)

/-- A credential store with a valid cached token (expires at epoch 1000,
clock at 0), for the C2 witness. -/
def demoA911Cfg : A911Config := ⟨"rt", "at", .jnum 1000⟩

/-- A credential store whose numeric expiration 10^12 (year ≈ 33658) lies
beyond the platform's datetime range, for the C2 counterexample. -/
def demoA911CfgFar : A911Config := ⟨"rt", "at", .jnum 1000000000000⟩

/-- C2 counterexample: claim C2 as stated is false of the program.  With a
non-empty cached access token and numeric expiration `10^12` — parseable as
epoch seconds and more than 5 minutes in the future, so the claim prescribes
returning the cached token with no refresh — `datetime.fromtimestamp` raises
(out of range), `fromisoformat` of its string form fails, `_is_token_valid`
returns `False`, and the program issues a refresh request. -/
theorem claim_C2_counterexample :
    (get_valid_token demoParsers 0 "" demoA911CfgFar none true).2.1 = true ∧
    (demoA911CfgFar.access_token ≠ "" ∧
      ∃ t, claimParsedExp demoParsers demoA911CfgFar.token_expiration = some t ∧
        (0 : ℚ) < t - TOKEN_EXPIRY_BUFFER_SECONDS) := by
  refine ⟨by decide, by decide, 1000000000000, rfl, ?_⟩
  have hb : TOKEN_EXPIRY_BUFFER_SECONDS = 300 := rfl
  rw [hb]
  norm_num

/-- C2 (amended): with no static override token and a usable refresh token,
the call returns the persisted access token without issuing a refresh
request iff the access token is non-empty and `now` is more than the
5-minute buffer before the expiration as the source parses it: a numeric
expiration (number or numeric string) counts as epoch seconds only where
`fromtimestamp` accepts it — it fails outside the platform's representable
datetime range, falling back to an ISO-8601 parse of the string form;
whenever the expiration is in the past, inside the buffer, or unparseable by
both routes — including a far-future numeric value beyond the platform range
— (or the access token is empty), a refresh request is issued instead.  The
parser hypotheses record that CPython's `float("")` and `fromisoformat("")`
fail and that `fromtimestamp` denotes the same instant where it succeeds;
`0 ≤ now` places the clock on the epoch timeline. -/
theorem claim_C2_amended (P : StrParsers) (now : ℚ) (cfg : A911Config)
    (resp : Option (Option String × JVal)) (saveOk : Bool)
    (hP1 : P.pyFloat "" = none) (hP2 : P.fromIso "" = none)
    (hFT : ∀ q t, P.fromTimestamp q = some t → t = q) (hnow : 0 ≤ now)
    (hrt1 : cfg.refresh_token ≠ "")
    (hrt2 : cfg.refresh_token ≠ PLACEHOLDER_REFRESH_TOKEN) :
    (((get_valid_token P now "" cfg resp saveOk).2.1 = false ∧
      (get_valid_token P now "" cfg resp saveOk).1 = some cfg.access_token) ↔
      (cfg.access_token ≠ "" ∧
        ∃ t, claimParsedExpAmended P cfg.token_expiration = some t ∧
          now < t - TOKEN_EXPIRY_BUFFER_SECONDS)) ∧
    ((get_valid_token P now "" cfg resp saveOk).2.1 = true ↔
      ¬ (cfg.access_token ≠ "" ∧
        ∃ t, claimParsedExpAmended P cfg.token_expiration = some t ∧
          now < t - TOKEN_EXPIRY_BUFFER_SECONDS)) := by
  have hvalid := is_token_valid_iff P now cfg.token_expiration hP1 hP2 hFT hnow
  unfold get_valid_token
  rw [if_neg (by simp), if_neg (not_or.mpr ⟨hrt1, hrt2⟩)]
  by_cases hc : cfg.access_token ≠ "" ∧ is_token_valid P now cfg.token_expiration = true
  · rw [if_pos hc]
    have hRHS : cfg.access_token ≠ "" ∧
        ∃ t, claimParsedExpAmended P cfg.token_expiration = some t ∧
          now < t - TOKEN_EXPIRY_BUFFER_SECONDS := ⟨hc.1, hvalid.mp hc.2⟩
    constructor
    · simp [hRHS]
    · simp [hRHS]
  · rw [if_neg hc]
    have hRHS : ¬ (cfg.access_token ≠ "" ∧
        ∃ t, claimParsedExpAmended P cfg.token_expiration = some t ∧
          now < t - TOKEN_EXPIRY_BUFFER_SECONDS) :=
      fun h => hc ⟨h.1, hvalid.mpr h.2⟩
    cases hr : refresh_access_token resp with
    | none =>
      dsimp only
      constructor
      · simp [hRHS]
      · simp [hRHS]
    | some pair =>
      obtain ⟨tok, exp⟩ := pair
      dsimp only
      constructor
      · simp [hRHS]
      · simp [hRHS]

/-- Witness for C2 (amended) at a concrete store with a fresh cached token
(expiration epoch 1000, inside the platform range). -/
theorem claim_C2_witness :
    ((get_valid_token demoParsers 0 "" demoA911Cfg none true).2.1 = false ∧
      (get_valid_token demoParsers 0 "" demoA911Cfg none true).1 =
        some demoA911Cfg.access_token) ↔
      (demoA911Cfg.access_token ≠ "" ∧
        ∃ t, claimParsedExpAmended demoParsers demoA911Cfg.token_expiration = some t ∧
          (0 : ℚ) < t - TOKEN_EXPIRY_BUFFER_SECONDS) :=
  (claim_C2_amended demoParsers 0 demoA911Cfg none true rfl rfl
    demoParsers_fromTimestamp_id (le_refl 0) (by decide) (by decide)).1

/-- C3: whenever `get_valid_token` performs a successful refresh, the
refreshed token is returned to the caller, and the durable credential store
handed back by the same call already carries the new access token and its
expiration when the persistence write succeeded (the write happens inside the
call, before the token is returned); a failed persistence write leaves the
store unchanged but still returns the token. -/
theorem claim_C3_refresh_persistence (P : StrParsers) (now : ℚ) (cfg : A911Config)
    (resp : Option (Option String × JVal)) (saveOk : Bool) (tok : String) (exp : JVal)
    (hrt1 : cfg.refresh_token ≠ "")
    (hrt2 : cfg.refresh_token ≠ PLACEHOLDER_REFRESH_TOKEN)
    (hinvalid : ¬ (cfg.access_token ≠ "" ∧
      is_token_valid P now cfg.token_expiration = true))
    (hrefresh : refresh_access_token resp = some (tok, exp)) :
    (get_valid_token P now "" cfg resp saveOk).1 = some tok ∧
    (get_valid_token P now "" cfg resp saveOk).2.1 = true ∧
    (saveOk = true →
      (get_valid_token P now "" cfg resp saveOk).2.2.access_token = tok ∧
      (get_valid_token P now "" cfg resp saveOk).2.2.token_expiration = exp ∧
      (get_valid_token P now "" cfg resp saveOk).2.2.refresh_token =
        cfg.refresh_token) ∧
    (saveOk = false → (get_valid_token P now "" cfg resp saveOk).2.2 = cfg) := by
  unfold get_valid_token
  rw [if_neg (by simp), if_neg (not_or.mpr ⟨hrt1, hrt2⟩), if_neg hinvalid, hrefresh]
  dsimp only
  cases saveOk
  · simp
  · simp

/-- A credential store with an empty cached access token, for the C3
witness. -/
def demoA911CfgExpired : A911Config := ⟨"rt", "", .jnull⟩

/-- Witness for C3 at a concrete expired store and a successful refresh whose
persistence write succeeds. -/
theorem claim_C3_witness :
    (get_valid_token demoParsers 0 "" demoA911CfgExpired
        (some (some "newtok", .jnum 2000)) true).1 = some "newtok" ∧
    (get_valid_token demoParsers 0 "" demoA911CfgExpired
        (some (some "newtok", .jnum 2000)) true).2.1 = true ∧
    (get_valid_token demoParsers 0 "" demoA911CfgExpired
        (some (some "newtok", .jnum 2000)) true).2.2.access_token = "newtok" ∧
    (get_valid_token demoParsers 0 "" demoA911CfgExpired
        (some (some "newtok", .jnum 2000)) true).2.2.token_expiration = .jnum 2000 := by
  have h := claim_C3_refresh_persistence demoParsers 0 demoA911CfgExpired
    (some (some "newtok", .jnum 2000)) true "newtok" (.jnum 2000)
    (by decide) (by decide) (by simp [demoA911CfgExpired]) (by decide)
  exact ⟨h.1, h.2.1, (h.2.2.1 rfl).1, (h.2.2.1 rfl).2.1⟩

-- ============================================================================
-- The processing loop (process_file / watch_and_process)
--
-- One processing attempt's external outcomes are an oracle `Fate`:
-- `ready` is the `is_file_ready` stability gate (after its one retry),
-- `transcribeOk` whether `transcribe_audio` returns (vs raises),
-- `appendOk` whether the CSV append write succeeds (failure modelled as
-- atomic: no row written), and `moveOk` whether `shutil.move` succeeds
-- (failure leaves the file in the watch folder).  The notification and
-- report-generation steps between append and move swallow their own errors
-- in the source and cannot abort the attempt, so they need no flags.
-- ============================================================================

/-- External outcomes of one processing attempt for one file. -/
structure Fate where
  ready : Bool
  transcribeOk : Bool
  tresult : TranscriptionResult
  appendOk : Bool
  moveOk : Bool

/-- The mutable state the loop acts on: the two directory listings and the
ledger contents. -/
structure SysState where
  watch : List String
  processed : List String
  csv : List CsvRow
deriving DecidableEq

/-- `process_file(model, filepath, filename, config)`: transcribe, append to
the ledger, then move to processed; every raised step aborts the attempt
(returns `False`) leaving the steps already performed in place. -/
def process_file (f : Fate) (fn : String) (s : SysState) : SysState × Bool :=
  if f.transcribeOk = false then (s, false)
  else if f.appendOk = false then (s, false)
  else if f.moveOk = false then
    ({ s with csv := append_to_csv s.csv fn f.tresult }, false)
  else
    ({ csv := append_to_csv s.csv fn f.tresult,
       watch := s.watch.filter (fun g => g != fn),
       processed := s.processed ++ [fn] }, true)

/-- One iteration of the inner `for filename in new_files` loop: skip the file
when the stability gate rejects it, otherwise run `process_file`. -/
def scan_step (fate : String → Fate) (st : SysState) (fn : String) : SysState :=
  if (fate fn).ready then (process_file (fate fn) fn st).1 else st

/-- One pass of the watch loop: list the eligible files once, then process
them in order. -/
def scan_pass (fate : String → Fate) (s : SysState) : SysState :=
  (get_new_audio_files s.watch s.processed).foldl (scan_step fate) s

/-- A whole run: one fate assignment per scan pass. -/
def run_passes (fates : List (String → Fate)) (s : SysState) : SysState :=
  fates.foldl (fun st f => scan_pass f st) s

/-- The number of ledger rows carrying the given filename. -/
def countRows (csv : List CsvRow) (fn : String) : Nat :=
  csv.countP (fun r => r.filename == fn)

theorem countRows_append_to_csv (csv : List CsvRow) (g : String)
    (r : TranscriptionResult) (fn : String) :
    countRows (append_to_csv csv g r) fn =
      countRows csv fn + if g = fn then 1 else 0 := by
  unfold countRows append_to_csv
  rw [List.countP_append]
  by_cases h : g = fn
  · simp [h]
  · simp [h]

theorem bool_ne_false (b : Bool) (h : ¬ b = false) : b = true := by
  cases b
  · exact absurd rfl h
  · rfl

theorem process_file_countRows_other (f : Fate) (g fn : String) (s : SysState)
    (hne : g ≠ fn) :
    countRows (process_file f g s).1.csv fn = countRows s.csv fn := by
  unfold process_file
  by_cases h1 : f.transcribeOk = false
  · rw [if_pos h1]
  · rw [if_neg h1]
    by_cases h2 : f.appendOk = false
    · rw [if_pos h2]
    · rw [if_neg h2]
      by_cases h3 : f.moveOk = false
      · rw [if_pos h3]
        show countRows (append_to_csv s.csv g f.tresult) fn = countRows s.csv fn
        rw [countRows_append_to_csv, if_neg hne]
        rfl
      · rw [if_neg h3]
        show countRows (append_to_csv s.csv g f.tresult) fn = countRows s.csv fn
        rw [countRows_append_to_csv, if_neg hne]
        rfl

theorem process_file_processed_mono (f : Fate) (g : String) (s : SysState)
    (x : String) (hx : x ∈ s.processed) : x ∈ (process_file f g s).1.processed := by
  unfold process_file
  by_cases h1 : f.transcribeOk = false
  · rw [if_pos h1]; exact hx
  · rw [if_neg h1]
    by_cases h2 : f.appendOk = false
    · rw [if_pos h2]; exact hx
    · rw [if_neg h2]
      by_cases h3 : f.moveOk = false
      · rw [if_pos h3]; exact hx
      · rw [if_neg h3]
        exact List.mem_append_left _ hx

theorem process_file_processed_sub (f : Fate) (g : String) (s : SysState)
    (x : String) (hx : x ∈ (process_file f g s).1.processed) :
    x ∈ s.processed ∨ x = g := by
  unfold process_file at hx
  by_cases h1 : f.transcribeOk = false
  · rw [if_pos h1] at hx; exact Or.inl hx
  · rw [if_neg h1] at hx
    by_cases h2 : f.appendOk = false
    · rw [if_pos h2] at hx; exact Or.inl hx
    · rw [if_neg h2] at hx
      by_cases h3 : f.moveOk = false
      · rw [if_pos h3] at hx; exact Or.inl hx
      · rw [if_neg h3] at hx
        rcases List.mem_append.mp hx with h | h
        · exact Or.inl h
        · exact Or.inr (List.mem_singleton.mp h)

theorem process_file_self_moveOk (f : Fate) (fn : String) (s : SysState)
    (hm : f.moveOk = true) :
    (process_file f fn s).1.csv = s.csv ∨
      (countRows (process_file f fn s).1.csv fn = countRows s.csv fn + 1 ∧
        fn ∈ (process_file f fn s).1.processed) := by
  unfold process_file
  by_cases h1 : f.transcribeOk = false
  · rw [if_pos h1]; exact Or.inl rfl
  · rw [if_neg h1]
    by_cases h2 : f.appendOk = false
    · rw [if_pos h2]; exact Or.inl rfl
    · rw [if_neg h2]
      rw [if_neg (by simp [hm])]
      refine Or.inr ⟨?_, ?_⟩
      · show countRows (append_to_csv s.csv fn f.tresult) fn = countRows s.csv fn + 1
        rw [countRows_append_to_csv, if_pos rfl]
      · exact List.mem_append_right _ (List.mem_singleton.mpr rfl)

/-- The at-most-once invariant for one filename: the ledger carries at most
one row for it, and carries one only once the file sits in the processed
folder. -/
def LedgerInv (fn : String) (s : SysState) : Prop :=
  countRows s.csv fn ≤ 1 ∧ (1 ≤ countRows s.csv fn → fn ∈ s.processed)

theorem get_new_not_processed (watch processed : List String) (f : String)
    (h : f ∈ get_new_audio_files watch processed) : f ∉ processed := by
  unfold get_new_audio_files at h
  rw [mem_sortStrings, List.mem_filter, contains_false_iff] at h
  exact h.2

theorem foldl_scan_inv (fate : String → Fate) (fn : String)
    (hm : ∀ g, (fate g).moveOk = true) :
    ∀ (L : List String) (s : SysState),
      LedgerInv fn s → L.Nodup → (fn ∈ s.processed → fn ∉ L) →
      LedgerInv fn (L.foldl (scan_step fate) s) := by
  intro L
  induction L with
  | nil => intro s h _ _; exact h
  | cons g L2 ih =>
    intro s hInv hNodup hExcl
    rw [List.foldl_cons]
    have hNd2 : L2.Nodup := (List.nodup_cons.mp hNodup).2
    have hgL2 : g ∉ L2 := (List.nodup_cons.mp hNodup).1
    have hInv2 : LedgerInv fn (scan_step fate s g) := by
      unfold scan_step
      by_cases hr : (fate g).ready = true
      · rw [if_pos hr]
        by_cases hg : g = fn
        · subst hg
          have hfn_not : g ∉ s.processed := by
            intro hmem
            exact (hExcl hmem) (List.mem_cons_self _ _)
          have hc0 : countRows s.csv g = 0 := by
            by_contra hne
            exact hfn_not (hInv.2 (Nat.one_le_iff_ne_zero.mpr hne))
          rcases process_file_self_moveOk (fate g) g s (hm g) with heq | ⟨hcnt, hproc⟩
          · constructor
            · show countRows (process_file (fate g) g s).1.csv g ≤ 1
              rw [heq, hc0]
              exact Nat.zero_le 1
            · intro h1
              rw [heq, hc0] at h1
              exact absurd h1 (by omega)
          · constructor
            · rw [hcnt, hc0]
            · intro _
              exact hproc
        · constructor
          · rw [process_file_countRows_other (fate g) g fn s hg]
            exact hInv.1
          · intro h1
            rw [process_file_countRows_other (fate g) g fn s hg] at h1
            exact process_file_processed_mono _ _ _ _ (hInv.2 h1)
      · rw [if_neg hr]
        exact hInv
    have hExcl2 : fn ∈ (scan_step fate s g).processed → fn ∉ L2 := by
      intro hmem
      unfold scan_step at hmem
      by_cases hr : (fate g).ready = true
      · rw [if_pos hr] at hmem
        rcases process_file_processed_sub (fate g) g s fn hmem with h | h
        · exact fun hL2 => (hExcl h) (List.mem_cons_of_mem _ hL2)
        · rw [h]
          exact hgL2
      · rw [if_neg hr] at hmem
        exact fun hL2 => (hExcl hmem) (List.mem_cons_of_mem _ hL2)
    exact ih (scan_step fate s g) hInv2 hNd2 hExcl2

theorem scan_pass_inv (fate : String → Fate) (fn : String)
    (hm : ∀ g, (fate g).moveOk = true) (s : SysState)
    (hInv : LedgerInv fn s) : LedgerInv fn (scan_pass fate s) := by
  unfold scan_pass
  apply foldl_scan_inv fate fn hm _ s hInv
  · exact nodup_sortStrings (((s.watch.filter hasAudioExt).nodup_dedup).filter _)
  · intro hmem hL
    exact (get_new_not_processed s.watch s.processed fn hL) hmem

theorem run_passes_inv (fn : String) :
    ∀ (fates : List (String → Fate)) (s : SysState),
      (∀ f ∈ fates, ∀ g, (f g).moveOk = true) → LedgerInv fn s →
      LedgerInv fn (run_passes fates s) := by
  intro fates
  induction fates with
  | nil => intro s _ h; exact h
  | cons f fs ih =>
    intro s hm hInv
    show LedgerInv fn (run_passes fs (scan_pass f s))
    exact ih (scan_pass f s) (fun f2 hf2 g => hm f2 (List.mem_cons_of_mem _ hf2) g)
      (scan_pass_inv f fn (fun g => hm f (List.mem_cons_self _ _) g) s hInv)

theorem process_file_move_after_write (f : Fate) (g : String) (s : SysState)
    (hnew : g ∉ s.processed) (hmoved : g ∈ (process_file f g s).1.processed) :
    f.transcribeOk = true ∧ f.appendOk = true ∧
    (process_file f g s).1.csv = append_to_csv s.csv g f.tresult := by
  unfold process_file at hmoved ⊢
  by_cases h1 : f.transcribeOk = false
  · rw [if_pos h1] at hmoved
    exact absurd hmoved hnew
  · rw [if_neg h1] at hmoved ⊢
    by_cases h2 : f.appendOk = false
    · rw [if_pos h2] at hmoved
      exact absurd hmoved hnew
    · rw [if_neg h2] at hmoved ⊢
      refine ⟨bool_ne_false _ h1, bool_ne_false _ h2, ?_⟩
      by_cases h3 : f.moveOk = false
      · rw [if_pos h3] at hmoved
        exact absurd hmoved hnew
      · rw [if_neg h3] at hmoved ⊢

/-- A transcription result used by the C1 run (zero duration, so the ledger's
realtime factor is the guarded 0). -/
def demoOkResult : TranscriptionResult := ⟨"", "", 0, 0⟩

/-- An attempt in which everything succeeds except the final move. -/
def fateMoveFails : Fate := ⟨true, true, demoOkResult, true, false⟩

/-- An attempt in which every step succeeds. -/
def fateAllOk : Fate := ⟨true, true, demoOkResult, true, true⟩

/-- The initial state of the C1 runs: one stable recording, empty processed
folder, empty ledger. -/
def demoRunState : SysState := ⟨["a.mp3"], [], []⟩

/-- C1 counterexample: ledger appends are NOT at-most-once per filename
across a run with per-file failures.  In pass 1 the transcription and the
ledger append succeed but the move to processed fails, so `a.mp3` stays in
the watch folder; pass 2 retries it and appends again: the finished run's
ledger carries two rows for `a.mp3` (and the file ends up processed). -/
theorem claim_C1_counterexample :
    countRows (run_passes [fun _ => fateMoveFails, fun _ => fateAllOk]
      demoRunState).csv "a.mp3" = 2 ∧
    (run_passes [fun _ => fateMoveFails, fun _ => fateAllOk]
      demoRunState).processed = ["a.mp3"] := by
  decide

/-- C1 (amended): a file is moved to the processed folder only after a
successful transcription and ledger append in the same attempt (so
`append(row)` runs exactly once per successfully transcribed file), and —
provided the move to processed never fails — the ledger append is performed
at most once per filename across an entire run, including transcription/
append failures and retries on later scan passes.  (Without that proviso the
guarantee fails: see the counterexample, where a failed move after a
successful append makes the retry append a second row.) -/
theorem claim_C1_amended :
    (∀ (f : Fate) (g : String) (s : SysState), g ∉ s.processed →
      g ∈ (process_file f g s).1.processed →
      f.transcribeOk = true ∧ f.appendOk = true ∧
      (process_file f g s).1.csv = append_to_csv s.csv g f.tresult) ∧
    (∀ (fates : List (String → Fate)) (s0 : SysState) (fn : String),
      s0.csv = [] → (∀ f ∈ fates, ∀ g, (f g).moveOk = true) →
      countRows (run_passes fates s0).csv fn ≤ 1) := by
  constructor
  · exact process_file_move_after_write
  · intro fates s0 fn hcsv hm
    have h0 : LedgerInv fn s0 := by
      constructor
      · unfold countRows
        rw [hcsv]
        simp
      · intro h1
        unfold countRows at h1
        rw [hcsv] at h1
        simp at h1
    exact (run_passes_inv fn fates s0 hm h0).1

/-- Witness for C1 (amended): a concrete failure-free run over one file makes
at most one ledger append for it. -/
theorem claim_C1_witness :
    countRows (run_passes [fun _ => fateAllOk] demoRunState).csv "a.mp3" ≤ 1 :=
  claim_C1_amended.2 [fun _ => fateAllOk] demoRunState "a.mp3" rfl
    (by simp [fateAllOk])
